import Mathlib

/-!
Verification development for the tuple-conversion engine of `go-tupleconv`:
string-to-typed-value converters, the sequence (fallback) combinator, the
nullable-wrapping policy, the schema-driven converter factory, and the
positional tuple mapper.

Go strings are modelled at the rune level as `List Char` wrapped in `String`;
machine integers are modelled as `Nat`/`Int` with explicit 64-bit range
checks where the source checks them.  Fallible conversions return `Option`
(a `none` result is the Go non-nil error), except where distinguishing
error kinds matters, in which case `Except` with an explicit error type
is used.
-/

namespace Tupleconv

/-! ### Decimal numerals: Go `strconv.ParseUint` / `strconv.ParseInt` (base 10,
bitSize 64) and `fmt` `%d` printing.

Modelled from the spec: `strconv` is the Go standard library, not part of this
repository; the spec describes base-10 signed/unsigned 64-bit parsing with a
range check and an optional leading sign (signed form only). -/

/-- Numeric value of a decimal digit character, `none` for a non-digit. -/
def digitVal? (c : Char) : Option Nat :=
  if '0' ≤ c ∧ c ≤ '9' then some (c.toNat - 48) else none

/-- Folds a digit list into a number, starting from `acc`; fails on the first
non-digit. -/
def parseDigitsAcc : Nat → List Char → Option Nat
  | acc, [] => some acc
  | acc, c :: cs =>
    match digitVal? c with
    | some d => parseDigitsAcc (acc * 10 + d) cs
    | none => none

/-- Value of a non-empty all-digit character list; `none` otherwise. -/
def parseNatDigits (l : List Char) : Option Nat :=
  if l = [] then none else parseDigitsAcc 0 l

/-- Go `strconv.ParseUint(s, 10, 64)`: digits only (no sign), value must fit
in 64 bits. -/
def parseGoUInt64 (s : String) : Option Nat :=
  match parseNatDigits s.data with
  | none => none
  | some n => if n ≤ 2 ^ 64 - 1 then some n else none

/-- Go `strconv.ParseInt(s, 10, 64)`: optional leading sign, digits, signed
64-bit range check. -/
def parseGoInt64 (s : String) : Option Int :=
  match s.data with
  | [] => none
  | c :: cs =>
    let neg := c = '-'
    let ds := if c = '-' ∨ c = '+' then cs else c :: cs
    match parseNatDigits ds with
    | none => none
    | some n =>
      if neg then
        if n ≤ 2 ^ 63 then some (-(n : Int)) else none
      else
        if n ≤ 2 ^ 63 - 1 then some (n : Int) else none

/-- Fuel-driven digit emitter; with fuel above `n` it produces the decimal
digits of `n`, most significant first. -/
def natDecAux : Nat → Nat → List Char
  | 0, _ => []
  | fuel + 1, n =>
    if n < 10 then [Nat.digitChar n]
    else natDecAux fuel (n / 10) ++ [Nat.digitChar (n % 10)]

/-- Decimal digit characters of `n`, most significant first (the digits that
Go `fmt` emits for `%d` on a non-negative value). -/
def natDecDigits (n : Nat) : List Char := natDecAux (n + 1) n

/-- Characters emitted by Go `fmt` for `%d` on an `int64` value: an optional
minus sign followed by the decimal digits of the absolute value. -/
def intDecChars (i : Int) : List Char :=
  if i < 0 then '-' :: natDecDigits i.natAbs else natDecDigits i.natAbs

/-- `i` lies in the signed 64-bit range of Go's `int64`. -/
def inInt64 (i : Int) : Prop := -(2 ^ 63) ≤ i ∧ i ≤ 2 ^ 63 - 1

instance (i : Int) : Decidable (inInt64 i) := by unfold inInt64; infer_instance

/-! ### Go string primitives used by the converters.

Modelled from the spec: `strings.Split`, `strings.Cut` and
`strings.ReplaceAll` are the Go standard library; Go strings are modelled at
the rune level, which for valid UTF-8 agrees with Go's byte-level substring
operations on single-rune separators. -/

/-- Go `strings.Split(s, string(sep))` for a single-rune separator:
splits around every occurrence of `sep`, keeping empty fields
(`Split("", sep) = [""]`). -/
def splitChar (sep : Char) : List Char → List (List Char)
  | [] => [[]]
  | c :: cs =>
    if c = sep then [] :: splitChar sep cs
    else
      match splitChar sep cs with
      | [] => [[c]]
      | g :: gs => (c :: g) :: gs

/-- Go `strings.Cut(s, string(sep))` for a single-rune separator: the part
before the first occurrence, the part after it, and whether it was found. -/
def cutChar (sep : Char) : List Char → List Char × List Char × Bool
  | [] => ([], [], false)
  | c :: cs =>
    if c = sep then ([], cs, true)
    else
      let r := cutChar sep cs
      (c :: r.1, r.2.1, r.2.2)

/-- Go `strings.ReplaceAll(s, string(c), to)` for a single-rune pattern. -/
def goReplaceAllChar (s : String) (c : Char) (dst : String) : String :=
  String.mk (s.data.flatMap (fun ch => if ch = c then dst.data else [ch]))

/-- `replaceCharacters` from the source: replaces every character of
`charsToReplace` (character by character) with `replaceTo`. -/
def replaceCharacters (src charsToReplace replaceTo : String) : String :=
  charsToReplace.data.foldl (fun s ch => goReplaceAllChar s ch replaceTo) src

/-! ### Civil time and the Go `time` package model.

Modelled from the spec: the `time` package is the Go standard library, not
part of this repository.  The spec describes the two layouts
`YYYY-MM-DDThh:mm:ss[.fraction]±hhmm` and `YYYY-MM-DDThh:mm:ss[.fraction]`,
numeric-offset normalization, and named-zone wall-clock parsing; a time value
is an absolute instant (seconds and nanoseconds) together with a location;
the time-zone database is the ambient environment, made an explicit
parameter here. -/

/-- A wall-clock date-time as parsed from a layout string. -/
structure Civil where
  year : Nat
  month : Nat
  day : Nat
  hour : Nat
  minute : Nat
  second : Nat
  nsec : Nat
deriving DecidableEq, Repr

def isLeap (y : Nat) : Bool := y % 4 = 0 && (y % 100 ≠ 0 || y % 400 = 0)

def daysInMonth (y m : Nat) : Nat :=
  if m = 2 then (if isLeap y then 29 else 28)
  else if m = 4 ∨ m = 6 ∨ m = 9 ∨ m = 11 then 30
  else 31

/-- Days since 1970-01-01 of a proleptic-Gregorian civil date. -/
def daysFromCivil (year month day : Nat) : Int :=
  let y : Int := if month ≤ 2 then (year : Int) - 1 else (year : Int)
  let era : Int := (if 0 ≤ y then y else y - 399) / 400
  let yoe : Int := y - era * 400
  let mp : Int := ((month : Int) + 9) % 12
  let doy : Int := (153 * mp + 2) / 5 + (day : Int) - 1
  let doe : Int := yoe * 365 + yoe / 4 - yoe / 100 + doy
  era * 146097 + doe - 719468

/-- Absolute second (Unix epoch) of a wall-clock time read in UTC. -/
def civilToSec (c : Civil) : Int :=
  daysFromCivil c.year c.month c.day * 86400 +
    (c.hour : Int) * 3600 + (c.minute : Int) * 60 + (c.second : Int)

/-- A Go `time.Location`: a zone name, the offset to apply to a wall-clock
reading, and the offset in effect at an absolute instant. -/
structure GoLocation where
  name : String
  wallOffset : Civil → Int
  absOffset : Int → Int

/-- Go `time.FixedZone`: a constant-offset location. -/
def goFixedZone (name : String) (offset : Int) : GoLocation :=
  ⟨name, fun _ => offset, fun _ => offset⟩

/-- go-tarantool `datetime.NoTimezone` (modelled from the spec: a
fixed-offset zone carries no name). -/
def noTimezone : String := ""

/-- A Go `time.Time`: absolute instant plus location. -/
structure GoTime where
  sec : Int
  nsec : Nat
  loc : GoLocation

/-- Go `(time.Time).Zone()`: the zone name and offset in effect. -/
def goZone (t : GoTime) : String × Int := (t.loc.name, t.loc.absOffset t.sec)

/-- Go `(time.Time).In(loc)`: same instant, new location. -/
def goIn (t : GoTime) (loc : GoLocation) : GoTime := { t with loc := loc }

/-- The ambient time-zone database consulted by Go `time.LoadLocation`. -/
def TzDb : Type := String → Option GoLocation

/-- Reads exactly two decimal digits. -/
def getDigit2 : List Char → Option (Nat × List Char)
  | a :: b :: rest =>
    match digitVal? a, digitVal? b with
    | some x, some y => some (x * 10 + y, rest)
    | _, _ => none
  | _ => none

/-- Reads exactly four decimal digits. -/
def getDigit4 : List Char → Option (Nat × List Char)
  | a :: b :: c :: d :: rest =>
    match digitVal? a, digitVal? b, digitVal? c, digitVal? d with
    | some w, some x, some y, some z => some (((w * 10 + x) * 10 + y) * 10 + z, rest)
    | _, _, _, _ => none
  | _ => none

/-- Consumes one expected character. -/
def expectCh (c : Char) : List Char → Option (List Char)
  | x :: rest => if x = c then some rest else none
  | [] => none

def fracDigitsVal (ds : List Char) : Nat :=
  ds.foldl (fun a c => a * 10 + ((digitVal? c).getD 0)) 0

/-- Optional fractional-second suffix `.d{1..9}`, scaled to nanoseconds. -/
def parseFracNsec (l : List Char) : Option (Nat × List Char) :=
  match l with
  | '.' :: rest =>
    let ds := rest.takeWhile (fun c => (digitVal? c).isSome)
    if ds.length = 0 then none
    else if 9 < ds.length then none
    else some (fracDigitsVal ds * 10 ^ (9 - ds.length),
      rest.dropWhile (fun c => (digitVal? c).isSome))
  | _ => some (0, l)

/-- Modelled from the spec: the wall-clock part `YYYY-MM-DDThh:mm:ss[.fraction]`
common to both layouts of Go `time.Parse` used by the source, with calendar
range validation; returns the unconsumed remainder. -/
def parseCivilPart (l : List Char) : Option (Civil × List Char) := do
  let (y, l) ← getDigit4 l
  let l ← expectCh '-' l
  let (mo, l) ← getDigit2 l
  let l ← expectCh '-' l
  let (d, l) ← getDigit2 l
  let l ← expectCh 'T' l
  let (hh, l) ← getDigit2 l
  let l ← expectCh ':' l
  let (mi, l) ← getDigit2 l
  let l ← expectCh ':' l
  let (ss, l) ← getDigit2 l
  let (ns, l) ← parseFracNsec l
  if 1 ≤ mo ∧ mo ≤ 12 ∧ 1 ≤ d ∧ d ≤ daysInMonth y mo ∧ hh ≤ 23 ∧ mi ≤ 59 ∧ ss ≤ 59 then
    some (⟨y, mo, d, hh, mi, ss, ns⟩, l)
  else none

/-- The layout `2006-01-02T15:04:05.999999999`, consuming the whole input. -/
def parseCivilWall (l : List Char) : Option Civil :=
  match parseCivilPart l with
  | some (c, []) => some c
  | _ => none

/-- The layout `2006-01-02T15:04:05.999999999-0700`: wall-clock part followed
by a numeric `±hhmm` offset, consuming the whole input; yields the civil
fields and the offset in seconds. -/
def parseCivilOffset (l : List Char) : Option (Civil × Int) :=
  match parseCivilPart l with
  | none => none
  | some (c, rest) =>
    match rest with
    | [] => none
    | s :: rest1 =>
      if s = '+' ∨ s = '-' then
        match getDigit2 rest1 with
        | none => none
        | some (zh, rest2) =>
          match getDigit2 rest2 with
          | none => none
          | some (zm, rest3) =>
            if rest3 = [] ∧ zh ≤ 23 ∧ zm ≤ 59 then
              let off : Int := (zh : Int) * 3600 + (zm : Int) * 60
              some (c, if s = '-' then -off else off)
            else none
      else none

/-- Go `time.Parse` with layout `2006-01-02T15:04:05.999999999-0700`
(modelled from the spec): the instant is the wall-clock reading minus the
numeric offset, placed in a fabricated fixed-offset zone with empty name. -/
def timeParseOffsetForm (l : List Char) : Option GoTime :=
  (parseCivilOffset l).map fun p => ⟨civilToSec p.1 - p.2, p.1.nsec, goFixedZone "" p.2⟩

/-- Go `time.ParseInLocation` with layout `2006-01-02T15:04:05.999999999`
(modelled from the spec): wall-clock semantics, the parsed fields are
interpreted in `loc`. -/
def goParseInLocation (l : List Char) (loc : GoLocation) : Option GoTime :=
  (parseCivilWall l).map fun c => ⟨civilToSec c - loc.wallOffset c, c.nsec, loc⟩

/-- go-tarantool `datetime.NewDatetime` (modelled from the spec, which
records no failure mode for parsed times): wraps the time value. -/
def goNewDatetime (t : GoTime) : Option GoTime := some t

/-! ### Generic JSON values.

Modelled from the spec: `encoding/json` is the Go standard library; the spec
asks for a generic JSON value union (null, bool, number, string,
array-of-value, string-keyed object). -/

inductive Jsonish where
  | null
  | bool (b : Bool)
  | num (numeral : String)
  | str (s : String)
  | arr (elems : List Jsonish)
  | obj (fields : List (String × Jsonish))
deriving Repr

def lbraceCh : Char := Char.ofNat 123

def rbraceCh : Char := Char.ofNat 125

def jsonWsChars : List Char := [' ', '\t', '\n', '\r']

def skipWs (l : List Char) : List Char := l.dropWhile (· ∈ jsonWsChars)

/-- JSON number grammar `-?(0|[1-9][0-9]*)(\.[0-9]+)?([eE][+-]?[0-9]+)?`;
returns the consumed numeral and the remainder. -/
def parseJNum (l : List Char) : Option (List Char × List Char) :=
  let (sign, l1) := match l with | '-' :: r => (['-'], r) | _ => (([] : List Char), l)
  let ipart := l1.takeWhile (fun c => (digitVal? c).isSome)
  let l2 := l1.dropWhile (fun c => (digitVal? c).isSome)
  if ipart.length = 0 then none
  else if 1 < ipart.length ∧ ipart.head? = some '0' then none
  else
    let step1 : Option (List Char × List Char) :=
      match l2 with
      | '.' :: r =>
        let fpart := r.takeWhile (fun c => (digitVal? c).isSome)
        if fpart.length = 0 then none
        else some ('.' :: fpart, r.dropWhile (fun c => (digitVal? c).isSome))
      | _ => some ([], l2)
    match step1 with
    | none => none
    | some (fchars, l3) =>
      let step2 : Option (List Char × List Char) :=
        match l3 with
        | e :: r =>
          if e = 'e' ∨ e = 'E' then
            let (esign, r1) := match r with
              | '+' :: r2 => (['+'], r2)
              | '-' :: r2 => (['-'], r2)
              | _ => (([] : List Char), r)
            let epart := r1.takeWhile (fun c => (digitVal? c).isSome)
            if epart.length = 0 then none
            else some (e :: (esign ++ epart), r1.dropWhile (fun c => (digitVal? c).isSome))
          else some ([], l3)
        | [] => some ([], l3)
      match step2 with
      | none => none
      | some (echars, l4) => some (sign ++ ipart ++ fchars ++ echars, l4)

/-- JSON string body after the opening quote; returns the decoded content and
the remainder after the closing quote. -/
def parseJStrRest : Nat → List Char → Option (List Char × List Char)
  | 0, _ => none
  | _ + 1, [] => none
  | fuel + 1, c :: rest =>
    if c = '"' then some ([], rest)
    else if c = '\\' then
      match rest with
      | [] => none
      | e :: rest2 =>
        if e = 'u' then
          match rest2 with
          | h1 :: h2 :: h3 :: h4 :: rest3 =>
            let hexVal? : Char → Option Nat := fun ch =>
              if '0' ≤ ch ∧ ch ≤ '9' then some (ch.toNat - 48)
              else if 'a' ≤ ch ∧ ch ≤ 'f' then some (ch.toNat - 87)
              else if 'A' ≤ ch ∧ ch ≤ 'F' then some (ch.toNat - 55)
              else none
            match hexVal? h1, hexVal? h2, hexVal? h3, hexVal? h4 with
            | some a, some b, some cc, some d =>
              (parseJStrRest fuel rest3).map fun p =>
                (Char.ofNat (((a * 16 + b) * 16 + cc) * 16 + d) :: p.1, p.2)
            | _, _, _, _ => none
          | _ => none
        else
          let simple? : Option Char :=
            if e = '"' then some '"'
            else if e = '\\' then some '\\'
            else if e = '/' then some '/'
            else if e = 'b' then some (Char.ofNat 8)
            else if e = 'f' then some (Char.ofNat 12)
            else if e = 'n' then some '\n'
            else if e = 'r' then some '\r'
            else if e = 't' then some '\t'
            else none
          match simple? with
          | none => none
          | some ch => (parseJStrRest fuel rest2).map fun p => (ch :: p.1, p.2)
    else if c.toNat < 32 then none
    else (parseJStrRest fuel rest).map fun p => (c :: p.1, p.2)

mutual

/-- One JSON value (fuel bounds the nesting depth). -/
def parseJVal : Nat → List Char → Option (Jsonish × List Char)
  | 0, _ => none
  | fuel + 1, l =>
    match skipWs l with
    | 'n' :: 'u' :: 'l' :: 'l' :: rest => some (.null, rest)
    | 't' :: 'r' :: 'u' :: 'e' :: rest => some (.bool true, rest)
    | 'f' :: 'a' :: 'l' :: 's' :: 'e' :: rest => some (.bool false, rest)
    | '"' :: rest =>
      (parseJStrRest (rest.length + 1) rest).map fun p => (.str (String.mk p.1), p.2)
    | c :: rest =>
      if c = '[' then
        match skipWs rest with
        | c2 :: rest2 =>
          if c2 = ']' then some (.arr [], rest2)
          else (parseJElems fuel (c2 :: rest2)).map fun p => (.arr p.1, p.2)
        | [] => none
      else if c = lbraceCh then
        match skipWs rest with
        | c2 :: rest2 =>
          if c2 = rbraceCh then some (.obj [], rest2)
          else (parseJMembers fuel (c2 :: rest2)).map fun p => (.obj p.1, p.2)
        | [] => none
      else
        (parseJNum (c :: rest)).map fun p => (.num (String.mk p.1), p.2)
    | [] => none

/-- Non-empty comma-separated array elements up to the closing bracket. -/
def parseJElems : Nat → List Char → Option (List Jsonish × List Char)
  | 0, _ => none
  | fuel + 1, l =>
    match parseJVal fuel l with
    | none => none
    | some (v, rest) =>
      match skipWs rest with
      | c :: rest2 =>
        if c = ',' then (parseJElems fuel rest2).map fun p => (v :: p.1, p.2)
        else if c = ']' then some ([v], rest2)
        else none
      | [] => none

/-- Non-empty comma-separated object members up to the closing brace. -/
def parseJMembers : Nat → List Char → Option (List (String × Jsonish) × List Char)
  | 0, _ => none
  | fuel + 1, l =>
    match skipWs l with
    | '"' :: rest =>
      match parseJStrRest (rest.length + 1) rest with
      | none => none
      | some (key, rest1) =>
        match skipWs rest1 with
        | c :: rest2 =>
          if c = ':' then
            match parseJVal fuel rest2 with
            | none => none
            | some (v, rest3) =>
              match skipWs rest3 with
              | c2 :: rest4 =>
                if c2 = ',' then
                  (parseJMembers fuel rest4).map fun p => ((String.mk key, v) :: p.1, p.2)
                else if c2 = rbraceCh then some ([(String.mk key, v)], rest4)
                else none
              | [] => none
          else none
        | [] => none
    | _ => none

end

/-- Go `json.Unmarshal` into a generic value (modelled from the spec):
one JSON value, optionally surrounded by whitespace, nothing trailing. -/
def jsonUnmarshal (s : String) : Option Jsonish :=
  match parseJVal (s.data.length + 1) s.data with
  | some (v, rest) => if skipWs rest = [] then some v else none
  | none => none

/-! ### Tarantool-facing values and the primitive converters. -/

/-- go-tarantool `datetime.Interval` (modelled from the spec: nine signed
64-bit fields, the last being the adjust-mode code). -/
structure Interval where
  year : Int
  month : Int
  week : Int
  day : Int
  hour : Int
  min : Int
  sec : Int
  nsec : Int
  adjust : Int
deriving DecidableEq, Repr

/-- go-tarantool `datetime.NoneAdjust` (modelled from the spec: the three
enumerated adjust codes are 0, 1, 2). -/
def noneAdjust : Int := 0

/-- go-tarantool `datetime.ExcessAdjust`. -/
def excessAdjust : Int := 1

/-- go-tarantool `datetime.LastAdjust`. -/
def lastAdjust : Int := 2

/-- The dynamically-typed result (Go `any`) of a conversion. -/
inductive Val where
  | null
  | bool (b : Bool)
  | uint (n : Nat)
  | int (i : Int)
  | float (numeral : String)
  | dec (sig exp : Int)
  | uuid (u : String)
  | datetime (d : GoTime)
  | interval (iv : Interval)
  | str (s : String)
  | bytes (b : String)
  | json (j : Jsonish)

/-- A `Converter[S, T]`: a fallible mapping; a `none` result is a non-nil
Go error. -/
def Conv (S T : Type) : Type := S → Option T

/-- `IdentityConverter[string].Convert`: returns the input unchanged. -/
def identityConvert : Conv String Val := fun src => some (.str src)

/-- `MakeSequenceConverter`: try each converter in order, return the first
success; if all fail, fail with a generic error. -/
def seqConvert {S T : Type} : List (Conv S T) → Conv S T
  | [], _ => none
  | c :: rest, src =>
    match c src with
    | some result => some result
    | none => seqConvert rest src

/-- Go `strconv.ParseBool` (modelled from the spec: the canonical
truthy/falsy literal forms). -/
def parseGoBool (s : String) : Option Bool :=
  if s ∈ ["1", "t", "T", "TRUE", "true", "True"] then some true
  else if s ∈ ["0", "f", "F", "FALSE", "false", "False"] then some false
  else none

/-- `StringToBoolConverter.Convert`. -/
def stringToBoolConvert : Conv String Val := fun src => (parseGoBool src).map .bool

/-- `StringToUIntConverter.Convert`: strip the ignore characters, then parse
base-10 unsigned 64-bit. -/
def stringToUIntConvert (ignoreChars : String) : Conv String Val := fun src =>
  (parseGoUInt64 (replaceCharacters src ignoreChars "")).map .uint

/-- `StringToIntConverter.Convert`: strip the ignore characters, then parse
base-10 signed 64-bit. -/
def stringToIntConvert (ignoreChars : String) : Conv String Val := fun src =>
  (parseGoInt64 (replaceCharacters src ignoreChars "")).map .int

/-- Go `strconv.ParseFloat` acceptance (modelled from the spec: decimal or
scientific notation; the IEEE-754 value itself is out of scope, so the model
carries the accepted numeral). -/
def isFloatNumeral (l : List Char) : Bool :=
  let l1 := match l with | '+' :: r => r | '-' :: r => r | _ => l
  let ip := l1.takeWhile (fun c => (digitVal? c).isSome)
  let l2 := l1.dropWhile (fun c => (digitVal? c).isSome)
  let fp := match l2 with
    | '.' :: r => r.takeWhile (fun c => (digitVal? c).isSome)
    | _ => []
  let l3 := match l2 with
    | '.' :: r => r.dropWhile (fun c => (digitVal? c).isSome)
    | _ => l2
  if ip.length = 0 ∧ fp.length = 0 then false
  else
    match l3 with
    | [] => true
    | e :: r =>
      if e = 'e' ∨ e = 'E' then
        let r1 := match r with | '+' :: r2 => r2 | '-' :: r2 => r2 | _ => r
        decide (r1 ≠ []) && r1.all (fun c => (digitVal? c).isSome)
      else false

/-- `StringToFloatConverter.Convert`: strip ignore characters, fold the
decimal separators to the canonical point, parse as float64. -/
def stringToFloatConvert (ignoreChars decSeparators : String) : Conv String Val := fun src =>
  let s1 := replaceCharacters src ignoreChars ""
  let s2 := replaceCharacters s1 decSeparators "."
  if isFloatNumeral s2.data then some (.float s2) else none

/-- go-tarantool `decimal.NewDecimalFromString` (modelled from the spec:
significant digits plus a power-of-ten exponent, scientific notation
supported). -/
def parseDecNumeral (l : List Char) : Option (Int × Int) :=
  let neg := match l with | '-' :: _ => true | _ => false
  let l1 := match l with | '-' :: r => r | '+' :: r => r | _ => l
  let ip := l1.takeWhile (fun c => (digitVal? c).isSome)
  let l2 := l1.dropWhile (fun c => (digitVal? c).isSome)
  let fp := match l2 with
    | '.' :: r => r.takeWhile (fun c => (digitVal? c).isSome)
    | _ => []
  let l3 := match l2 with
    | '.' :: r => r.dropWhile (fun c => (digitVal? c).isSome)
    | _ => l2
  if ip.length = 0 ∧ fp.length = 0 then none
  else
    let sigNat := fracDigitsVal (ip ++ fp)
    let sig : Int := if neg then -(sigNat : Int) else (sigNat : Int)
    match l3 with
    | [] => some (sig, -(fp.length : Int))
    | e :: r =>
      if e = 'e' ∨ e = 'E' then
        let eneg := match r with | '-' :: _ => true | _ => false
        let r1 := match r with | '+' :: r2 => r2 | '-' :: r2 => r2 | _ => r
        if r1 ≠ [] ∧ r1.all (fun c => (digitVal? c).isSome) then
          let ev : Int := if eneg then -(fracDigitsVal r1 : Int) else (fracDigitsVal r1 : Int)
          some (sig, ev - (fp.length : Int))
        else none
      else none

/-- `StringToDecimalConverter.Convert`. -/
def stringToDecimalConvert (ignoreChars decSeparators : String) : Conv String Val := fun src =>
  let s1 := replaceCharacters src ignoreChars ""
  let s2 := replaceCharacters s1 decSeparators "."
  (parseDecNumeral s2.data).map fun p => .dec p.1 p.2

def isHexCh (c : Char) : Bool :=
  (digitVal? c).isSome || decide ('a' ≤ c ∧ c ≤ 'f') || decide ('A' ≤ c ∧ c ≤ 'F')

/-- Go `uuid.Parse` (modelled from the spec: canonical 8-4-4-4-12 hyphenated
hex form). -/
def parseGoUUID (s : String) : Option String :=
  match splitChar '-' s.data with
  | [a, b, c, d, e] =>
    if a.length = 8 ∧ b.length = 4 ∧ c.length = 4 ∧ d.length = 4 ∧ e.length = 12
        ∧ (a ++ b ++ c ++ d ++ e).all isHexCh then some s
    else none
  | _ => none

/-- `StringToUUIDConverter.Convert`. -/
def stringToUUIDConvert : Conv String Val := fun src => (parseGoUUID src).map .uuid

/-- `StringToDatetimeConverter.Convert`: cut on the first space; with no
space parse the numeric-offset layout and renormalize into a fixed-offset
zone with the parsed offset; with a space load the named zone from the
database and parse the prefix in it. -/
def stringToDatetimeConvert (db : TzDb) : Conv String Val := fun src =>
  let cut := cutChar ' ' src.data
  if cut.2.2 = false then
    match timeParseOffsetForm src.data with
    | none => none
    | some tm =>
      let offset := (goZone tm).2
      let tm2 := goIn tm (goFixedZone noTimezone offset)
      (goNewDatetime tm2).map .datetime
  else
    match db (String.mk cut.2.1) with
    | none => none
    | some loc =>
      match goParseInLocation cut.1 loc with
      | none => none
      | some tm => (goNewDatetime tm).map .datetime

/-- `StringToMapConverter.Convert`: a generic JSON decode of the input, with
no validation of the decoded top-level shape. -/
def stringToMapConvert : Conv String Val := fun src =>
  match jsonUnmarshal src with
  | none => none
  | some result => some (.json result)

/-- `StringToSliceConverter.Convert`: a generic JSON decode of the input,
with no validation of the decoded top-level shape. -/
def stringToSliceConvert : Conv String Val := fun src =>
  match jsonUnmarshal src with
  | none => none
  | some result => some (.json result)

/-- `StringToBinaryConverter.Convert`: the raw bytes of the input. -/
def stringToBinaryConvert : Conv String Val := fun src => some (.bytes src)

/-- `StringToNullConverter.Convert`: succeeds with null exactly on the
configured sentinel. -/
def stringToNullConvert (nullValue : String) : Conv String Val := fun src =>
  if src ≠ nullValue then none else some .null

/-- The parsing loop of `StringToIntervalConverter.Convert`: every field as a
base-10 signed 64-bit integer, failing on the first bad field. -/
def parseAllInt64 : List (List Char) → Option (List Int)
  | [] => some []
  | p :: ps =>
    match parseGoInt64 (String.mk p) with
    | none => none
    | some v => (parseAllInt64 ps).map (v :: ·)

/-- `StringToIntervalConverter.Convert`: split on commas into exactly nine
base-10 signed 64-bit fields, the ninth being one of the three adjust
codes. -/
def stringToIntervalConvert : Conv String Val := fun src =>
  let parts := splitChar ',' src.data
  if parts.length = 9 then
    match parseAllInt64 parts with
    | some [y, mo, w, d, h, mi, se, ns, ad] =>
      if ad ≠ noneAdjust ∧ ad ≠ excessAdjust ∧ ad ≠ lastAdjust then none
      else some (.interval ⟨y, mo, w, d, h, mi, se, ns, ad⟩)
    | _ => none
  else none

/-- The nine `%d`-printed fields of an interval, comma-joined. -/
def intervalToStringChars (iv : Interval) : List Char :=
  intDecChars iv.year ++ ',' :: intDecChars iv.month ++ ',' :: intDecChars iv.week ++
    ',' :: intDecChars iv.day ++ ',' :: intDecChars iv.hour ++ ',' :: intDecChars iv.min ++
    ',' :: intDecChars iv.sec ++ ',' :: intDecChars iv.nsec ++ ',' :: intDecChars iv.adjust

/-- `IntervalToStringConverter.Convert`: emits the comma-joined fields; the
returned error is always nil. -/
def intervalToStringConvert (iv : Interval) : Option String :=
  some (String.mk (intervalToStringChars iv))

/-! ### The factory, dispatch by type name, the assembler and the mapper. -/

/-- `StringToTTConvFactory`: the three configuration options. -/
structure StringToTTConvFactory where
  thousandSeparators : String
  decimalSeparators : String
  nullValue : String

/-- `MakeStringToTTConvFactory`: the defaults (no thousand separators,
canonical decimal point, empty null sentinel). -/
def makeStringToTTConvFactory : StringToTTConvFactory := ⟨"", ".", ""⟩

def StringToTTConvFactory.getBooleanConverter (_ : StringToTTConvFactory) : Conv String Val :=
  stringToBoolConvert

def StringToTTConvFactory.getStringConverter (_ : StringToTTConvFactory) : Conv String Val :=
  identityConvert

def StringToTTConvFactory.getUnsignedConverter (fac : StringToTTConvFactory) : Conv String Val :=
  stringToUIntConvert fac.thousandSeparators

def StringToTTConvFactory.getDatetimeConverter (_ : StringToTTConvFactory) (db : TzDb) :
    Conv String Val :=
  stringToDatetimeConvert db

def StringToTTConvFactory.getUUIDConverter (_ : StringToTTConvFactory) : Conv String Val :=
  stringToUUIDConvert

def StringToTTConvFactory.getMapConverter (_ : StringToTTConvFactory) : Conv String Val :=
  stringToMapConvert

def StringToTTConvFactory.getArrayConverter (_ : StringToTTConvFactory) : Conv String Val :=
  stringToSliceConvert

def StringToTTConvFactory.getVarbinaryConverter (_ : StringToTTConvFactory) : Conv String Val :=
  stringToBinaryConvert

def StringToTTConvFactory.getDoubleConverter (fac : StringToTTConvFactory) : Conv String Val :=
  stringToFloatConvert fac.thousandSeparators fac.decimalSeparators

def StringToTTConvFactory.getDecimalConverter (fac : StringToTTConvFactory) : Conv String Val :=
  stringToDecimalConvert fac.thousandSeparators fac.decimalSeparators

def StringToTTConvFactory.getIntegerConverter (fac : StringToTTConvFactory) : Conv String Val :=
  seqConvert [stringToUIntConvert fac.thousandSeparators,
    stringToIntConvert fac.thousandSeparators]

def StringToTTConvFactory.getNumberConverter (fac : StringToTTConvFactory) : Conv String Val :=
  seqConvert [stringToUIntConvert fac.thousandSeparators,
    stringToIntConvert fac.thousandSeparators,
    stringToFloatConvert fac.thousandSeparators fac.decimalSeparators]

def StringToTTConvFactory.getIntervalConverter (_ : StringToTTConvFactory) : Conv String Val :=
  stringToIntervalConvert

/-- `GetAnyConverter`: number, decimal, boolean, datetime, uuid, interval and
finally the identity string converter, tried in order. -/
def StringToTTConvFactory.getAnyConverter (fac : StringToTTConvFactory) (db : TzDb) :
    Conv String Val :=
  seqConvert [fac.getNumberConverter, fac.getDecimalConverter, fac.getBooleanConverter,
    fac.getDatetimeConverter db, fac.getUUIDConverter, fac.getIntervalConverter,
    fac.getStringConverter]

/-- `GetScalarConverter`: the same alternatives as `GetAnyConverter`. -/
def StringToTTConvFactory.getScalarConverter (fac : StringToTTConvFactory) (db : TzDb) :
    Conv String Val :=
  seqConvert [fac.getNumberConverter, fac.getDecimalConverter, fac.getBooleanConverter,
    fac.getDatetimeConverter db, fac.getUUIDConverter, fac.getIntervalConverter,
    fac.getStringConverter]

/-- `MakeNullableConverter`: try the null-sentinel converter first, then the
base converter. -/
def StringToTTConvFactory.makeNullableConverter (fac : StringToTTConvFactory)
    (converter : Conv String Val) : Conv String Val :=
  seqConvert [stringToNullConvert fac.nullValue, converter]

/-- The `TTConvFactory[Type]` interface: one converter per supported type
name plus the nullable-wrapping operation. -/
structure TTConvFactoryI (S : Type) where
  getBooleanConverter : Conv S Val
  getStringConverter : Conv S Val
  getUnsignedConverter : Conv S Val
  getDatetimeConverter : Conv S Val
  getUUIDConverter : Conv S Val
  getMapConverter : Conv S Val
  getArrayConverter : Conv S Val
  getVarbinaryConverter : Conv S Val
  getDoubleConverter : Conv S Val
  getDecimalConverter : Conv S Val
  getIntegerConverter : Conv S Val
  getNumberConverter : Conv S Val
  getAnyConverter : Conv S Val
  getScalarConverter : Conv S Val
  getIntervalConverter : Conv S Val
  makeNullableConverter : Conv S Val → Conv S Val

/-- The `StringToTTConvFactory` method set as a `TTConvFactory[string]`. -/
def stringFactoryI (db : TzDb) (fac : StringToTTConvFactory) : TTConvFactoryI String where
  getBooleanConverter := fac.getBooleanConverter
  getStringConverter := fac.getStringConverter
  getUnsignedConverter := fac.getUnsignedConverter
  getDatetimeConverter := fac.getDatetimeConverter db
  getUUIDConverter := fac.getUUIDConverter
  getMapConverter := fac.getMapConverter
  getArrayConverter := fac.getArrayConverter
  getVarbinaryConverter := fac.getVarbinaryConverter
  getDoubleConverter := fac.getDoubleConverter
  getDecimalConverter := fac.getDecimalConverter
  getIntegerConverter := fac.getIntegerConverter
  getNumberConverter := fac.getNumberConverter
  getAnyConverter := fac.getAnyConverter db
  getScalarConverter := fac.getScalarConverter db
  getIntervalConverter := fac.getIntervalConverter
  makeNullableConverter := fac.makeNullableConverter

/-- The fifteen supported type names. -/
def validTypeNames : List String :=
  ["boolean", "string", "integer", "unsigned", "double", "number", "decimal",
    "datetime", "uuid", "array", "map", "varbinary", "scalar", "any", "interval"]

/-- `GetConverterByType`: dispatch a type name to the matching factory
operation; an unrecognized name is the dispatch error (carrying that name). -/
def getConverterByType {S : Type} (fac : TTConvFactoryI S) (typ : String) :
    Except String (Conv S Val) :=
  match typ with
  | "boolean" => .ok fac.getBooleanConverter
  | "string" => .ok fac.getStringConverter
  | "unsigned" => .ok fac.getUnsignedConverter
  | "datetime" => .ok fac.getDatetimeConverter
  | "uuid" => .ok fac.getUUIDConverter
  | "map" => .ok fac.getMapConverter
  | "array" => .ok fac.getArrayConverter
  | "varbinary" => .ok fac.getVarbinaryConverter
  | "double" => .ok fac.getDoubleConverter
  | "decimal" => .ok fac.getDecimalConverter
  | "integer" => .ok fac.getIntegerConverter
  | "number" => .ok fac.getNumberConverter
  | "any" => .ok fac.getAnyConverter
  | "scalar" => .ok fac.getScalarConverter
  | "interval" => .ok fac.getIntervalConverter
  | _ => .error typ

/-- A `SpaceField` descriptor: id, name, type name, nullability. -/
structure SpaceField where
  id : Nat
  name : String
  type : String
  isNullable : Bool

/-- `MakeTypeToTTConverters`: per field, dispatch the type name (failing fast
on the first dispatch error), wrap nullable fields with the nullable
converter, and wrap the result so a conversion failure is re-reported as a
uniform error. -/
def makeTypeToTTConverters {S : Type} (fac : TTConvFactoryI S) :
    List SpaceField → Except String (List (Conv S Val))
  | [] => .ok []
  | f :: rest =>
    match getConverterByType fac f.type with
    | .error e => .error e
    | .ok conv =>
      let conv1 := if f.isNullable then fac.makeNullableConverter conv else conv
      let wrapped : Conv S Val := fun s =>
        match conv1 s with
        | none => none
        | some result => some result
      match makeTypeToTTConverters fac rest with
      | .error e => .error e
      | .ok l => .ok (wrapped :: l)

/-- The distinguishable failure modes of `Mapper.Map`. -/
inductive MapError where
  /-- The tuple is longer than the converter list and no default is set. -/
  | lengthMismatch
  /-- Some converter returned an error. -/
  | convError
  /-- Dereference of an absent default converter (a Go nil-pointer panic;
  unreachable after validation). -/
  | nilDefault
deriving DecidableEq, Repr

/-- `Mapper`: a converter list and an optional default converter. -/
structure Mapper (S T : Type) where
  converters : List (Conv S T)
  defaultConverter : Option (Conv S T)

/-- `Mapper.validateTuple`: reject a tuple longer than the converter list
when no default converter is set. -/
def Mapper.validateTuple {S T : Type} (m : Mapper S T) (tuple : List S) : Option MapError :=
  if tuple.length > m.converters.length ∧ m.defaultConverter.isNone then some .lengthMismatch
  else none

/-- The conversion loop of `Mapper.Map`: converter `i` for position
`i < len(converters)`, the default converter past the end; first error
wins. -/
def mapFields {S T : Type} :
    List (Conv S T) → Option (Conv S T) → List S → Except MapError (List T)
  | _, _, [] => .ok []
  | [], none, _ :: _ => .error .nilDefault
  | [], some d, x :: xs =>
    match d x with
    | none => .error .convError
    | some y =>
      match mapFields [] (some d) xs with
      | .error e => .error e
      | .ok ys => .ok (y :: ys)
  | c :: cs, dflt, x :: xs =>
    match c x with
    | none => .error .convError
    | some y =>
      match mapFields cs dflt xs with
      | .error e => .error e
      | .ok ys => .ok (y :: ys)

/-- `Mapper.Map`: validate, then convert position by position until the
first error. -/
def Mapper.map {S T : Type} (m : Mapper S T) (tuple : List S) : Except MapError (List T) :=
  match m.validateTuple tuple with
  | some e => .error e
  | none => mapFields m.converters m.defaultConverter tuple

/-- Joins chunks with a single separator character between them (the shape
of a `%d,%d,...,%d` format result). -/
def joinSep (sep : Char) : List (List Char) → List Char
  | [] => []
  | [f] => f
  | f :: rest => f ++ sep :: joinSep sep rest

theorem natDecAux_congr (n : Nat) :
    ∀ fuel fuel', n < fuel → n < fuel' → natDecAux fuel n = natDecAux fuel' n := by
  induction n using Nat.strong_induction_on with
  | _ n ih =>
    intro fuel fuel' hf hf'
    match fuel, fuel' with
    | f + 1, f' + 1 =>
      rw [natDecAux, natDecAux]
      by_cases h10 : n < 10
      · rw [if_pos h10, if_pos h10]
      · rw [if_neg h10, if_neg h10]
        have hlt : n / 10 < n := Nat.div_lt_self (by omega) (by omega)
        rw [ih (n / 10) hlt f (n / 10 + 1) (by omega) (by omega),
          ih (n / 10) hlt f' (n / 10 + 1) (by omega) (by omega)]

/-- One-step unfolding of `natDecDigits`. -/
theorem natDecDigits_eq (n : Nat) :
    natDecDigits n =
      if n < 10 then [Nat.digitChar n]
      else natDecDigits (n / 10) ++ [Nat.digitChar (n % 10)] := by
  rw [natDecDigits, natDecAux]
  by_cases h10 : n < 10
  · rw [if_pos h10, if_pos h10]
  · rw [if_neg h10, if_neg h10, natDecDigits]
    have hlt : n / 10 < n := Nat.div_lt_self (by omega) (by omega)
    rw [natDecAux_congr (n / 10) n (n / 10 + 1) (by omega) (by omega)]

theorem digitVal?_digitChar {d : Nat} (h : d < 10) :
    digitVal? (Nat.digitChar d) = some d := by
  interval_cases d <;> decide

theorem isDigit_digitChar {d : Nat} (h : d < 10) :
    (Nat.digitChar d).isDigit = true := by
  interval_cases d <;> decide

theorem natDecDigits_ne_nil (n : Nat) : natDecDigits n ≠ [] := by
  rw [natDecDigits_eq]
  split <;> simp

theorem mem_natDecDigits_isDigit (n : Nat) :
    ∀ c ∈ natDecDigits n, c.isDigit = true := by
  induction n using Nat.strong_induction_on with
  | _ n ih =>
    rw [natDecDigits_eq]
    split
    · next h =>
      intro c hc
      simp only [List.mem_singleton] at hc
      subst hc
      exact isDigit_digitChar h
    · next h =>
      intro c hc
      rcases List.mem_append.mp hc with h1 | h2
      · exact ih (n / 10) (Nat.div_lt_self (by omega) (by omega)) c h1
      · simp only [List.mem_singleton] at h2
        subst h2
        exact isDigit_digitChar (Nat.mod_lt _ (by omega))

theorem parseDigitsAcc_append (acc : Nat) (xs ys : List Char) :
    parseDigitsAcc acc (xs ++ ys) =
      (parseDigitsAcc acc xs).bind (fun m => parseDigitsAcc m ys) := by
  induction xs generalizing acc with
  | nil => simp [parseDigitsAcc]
  | cons c cs ih =>
    simp only [List.cons_append, parseDigitsAcc]
    cases digitVal? c with
    | none => simp
    | some d => simpa using ih (acc * 10 + d)

theorem parseDigitsAcc_natDecDigits (n : Nat) :
    ∀ acc, parseDigitsAcc acc (natDecDigits n) =
      some (acc * 10 ^ (natDecDigits n).length + n) := by
  induction n using Nat.strong_induction_on with
  | _ n ih =>
    intro acc
    rw [natDecDigits_eq]
    split
    · next h =>
      simp [parseDigitsAcc, digitVal?_digitChar h]
    · next h =>
      rw [parseDigitsAcc_append, ih (n / 10) (Nat.div_lt_self (by omega) (by omega)) acc]
      simp only [Option.some_bind, parseDigitsAcc,
        digitVal?_digitChar (Nat.mod_lt n (show 0 < 10 by omega)), List.length_append,
        List.length_singleton]
      have hpow : 10 ^ ((natDecDigits (n / 10)).length + 1) =
          10 ^ (natDecDigits (n / 10)).length * 10 := pow_succ 10 _
      rw [hpow]
      congr 1
      have hk : (acc * 10 ^ (natDecDigits (n / 10)).length + n / 10) * 10 + n % 10 =
          acc * (10 ^ (natDecDigits (n / 10)).length * 10) + (10 * (n / 10) + n % 10) := by
        ring
      rw [hk, Nat.div_add_mod]

theorem parseNatDigits_natDecDigits (n : Nat) :
    parseNatDigits (natDecDigits n) = some n := by
  have h := parseDigitsAcc_natDecDigits n 0
  simp only [Nat.zero_mul, Nat.zero_add] at h
  rw [parseNatDigits, if_neg (natDecDigits_ne_nil n)]
  exact h

theorem head_natDecDigits_not_sign (n : Nat) (c : Char) (cs : List Char)
    (h : natDecDigits n = c :: cs) : ¬(c = '-' ∨ c = '+') := by
  have hd : c.isDigit = true := mem_natDecDigits_isDigit n c (by rw [h]; simp)
  rintro (rfl | rfl) <;> simp [Char.isDigit] at hd

theorem parseGoInt64_intDecChars (i : Int) (h : inInt64 i) :
    parseGoInt64 (String.mk (intDecChars i)) = some i := by
  obtain ⟨h1, h2⟩ := h
  by_cases hneg : i < 0
  · have hdata : intDecChars i = '-' :: natDecDigits i.natAbs := by
      simp [intDecChars, hneg]
    have hle : i.natAbs ≤ 2 ^ 63 := by omega
    simp only [parseGoInt64, hdata, parseNatDigits_natDecDigits, true_or, if_true,
      if_pos rfl, if_pos hle]
    rw [Int.ofNat_natAbs_of_nonpos (le_of_lt hneg), neg_neg]
  · have hdata : intDecChars i = natDecDigits i.natAbs := by
      simp [intDecChars, hneg]
    match hl : natDecDigits i.natAbs with
    | [] => exact absurd hl (natDecDigits_ne_nil _)
    | c :: cs =>
      have hsign := head_natDecDigits_not_sign i.natAbs c cs hl
      have hc1 : ¬c = '-' := fun hc => hsign (Or.inl hc)
      have hle : i.natAbs ≤ 2 ^ 63 - 1 := by omega
      have hdc : intDecChars i = c :: cs := hdata.trans hl
      simp only [parseGoInt64, hdc, if_neg hsign, if_neg hc1]
      rw [← hl, parseNatDigits_natDecDigits]
      simp only [if_pos hle]
      rw [Int.natAbs_of_nonneg (not_lt.mp hneg)]

theorem splitChar_ne_nil (sep : Char) (l : List Char) : splitChar sep l ≠ [] := by
  cases l with
  | nil => simp [splitChar]
  | cons c cs =>
    rw [splitChar]
    split
    · simp
    · split <;> simp

theorem splitChar_not_mem {sep : Char} {l : List Char} (h : sep ∉ l) :
    splitChar sep l = [l] := by
  induction l with
  | nil => rfl
  | cons c cs ih =>
    have hc : ¬c = sep := fun hc => h (by simp [hc])
    have hcs : sep ∉ cs := fun hm => h (by simp [hm])
    rw [splitChar, if_neg hc, ih hcs]

theorem splitChar_append {sep : Char} {a : List Char} (rest : List Char)
    (h : sep ∉ a) : splitChar sep (a ++ sep :: rest) = a :: splitChar sep rest := by
  induction a with
  | nil => simp [splitChar]
  | cons c cs ih =>
    have hc : ¬c = sep := fun hc => h (by simp [hc])
    have hcs : sep ∉ cs := fun hm => h (by simp [hm])
    rw [List.cons_append, splitChar, if_neg hc, ih hcs]

theorem cutChar_not_mem {sep : Char} {l : List Char} (h : sep ∉ l) :
    cutChar sep l = (l, [], false) := by
  induction l with
  | nil => rfl
  | cons c cs ih =>
    have hc : ¬c = sep := fun hc => h (by simp [hc])
    have hcs : sep ∉ cs := fun hm => h (by simp [hm])
    rw [cutChar, if_neg hc, ih hcs]

theorem cutChar_append {sep : Char} {pre : List Char} (suf : List Char)
    (h : sep ∉ pre) : cutChar sep (pre ++ sep :: suf) = (pre, suf, true) := by
  induction pre with
  | nil => simp [cutChar]
  | cons c cs ih =>
    have hc : ¬c = sep := fun hc => h (by simp [hc])
    have hcs : sep ∉ cs := fun hm => h (by simp [hm])
    rw [List.cons_append, cutChar, if_neg hc, ih hcs]

/-! ### Helper lemmas. -/

theorem string_mk_data (l : List Char) : (String.mk l).data = l := rfl

theorem parseGoInt64_intDecChars_out (i : Int) (h : ¬inInt64 i) :
    parseGoInt64 (String.mk (intDecChars i)) = none := by
  by_cases hneg : i < 0
  · have hdata : intDecChars i = '-' :: natDecDigits i.natAbs := by
      simp [intDecChars, hneg]
    have hgt : ¬(i.natAbs ≤ 2 ^ 63) := by
      unfold inInt64 at h
      omega
    simp only [parseGoInt64, hdata, parseNatDigits_natDecDigits, true_or, if_true,
      if_pos rfl, if_neg hgt]
  · have hdata : intDecChars i = natDecDigits i.natAbs := by
      simp [intDecChars, hneg]
    match hl : natDecDigits i.natAbs with
    | [] => exact absurd hl (natDecDigits_ne_nil _)
    | c :: cs =>
      have hsign := head_natDecDigits_not_sign i.natAbs c cs hl
      have hc1 : ¬c = '-' := fun hc => hsign (Or.inl hc)
      have hgt : ¬(i.natAbs ≤ 2 ^ 63 - 1) := by
        unfold inInt64 at h
        omega
      have hdc : intDecChars i = c :: cs := hdata.trans hl
      simp only [parseGoInt64, hdc, if_neg hsign, if_neg hc1]
      rw [← hl, parseNatDigits_natDecDigits]
      simp only [if_neg hgt]

theorem parseGoInt64_print (i : Int) :
    parseGoInt64 (String.mk (intDecChars i)) = if inInt64 i then some i else none := by
  by_cases h : inInt64 i
  · rw [if_pos h]
    exact parseGoInt64_intDecChars i h
  · rw [if_neg h]
    exact parseGoInt64_intDecChars_out i h

theorem mem_intDecChars (i : Int) : ∀ c ∈ intDecChars i, c = '-' ∨ c.isDigit = true := by
  intro c hc
  rw [intDecChars] at hc
  split at hc
  · rcases List.mem_cons.mp hc with rfl | hm
    · exact Or.inl rfl
    · exact Or.inr (mem_natDecDigits_isDigit _ c hm)
  · exact Or.inr (mem_natDecDigits_isDigit _ c hc)

theorem comma_not_mem_intDecChars (i : Int) : ',' ∉ intDecChars i := by
  intro hc
  rcases mem_intDecChars i ',' hc with h | h <;> revert h <;> decide

theorem splitChar_joinSep (sep : Char) :
    ∀ fs : List (List Char), fs ≠ [] → (∀ f ∈ fs, sep ∉ f) →
      splitChar sep (joinSep sep fs) = fs := by
  intro fs
  induction fs with
  | nil => intro h; exact absurd rfl h
  | cons f rest ih =>
    intro _ hnm
    cases rest with
    | nil =>
      show splitChar sep (joinSep sep [f]) = [f]
      rw [joinSep]
      exact splitChar_not_mem (hnm f (List.mem_cons_self f []))
    | cons g rest' =>
      rw [joinSep, splitChar_append _ (hnm f (List.mem_cons_self f _)),
        ih (List.cons_ne_nil g rest') (fun x hx => hnm x (List.mem_cons_of_mem f hx))]
      exact fun hh => (List.cons_ne_nil g rest') hh

theorem intervalToStringChars_eq (iv : Interval) :
    intervalToStringChars iv = joinSep ',' [intDecChars iv.year, intDecChars iv.month,
      intDecChars iv.week, intDecChars iv.day, intDecChars iv.hour, intDecChars iv.min,
      intDecChars iv.sec, intDecChars iv.nsec, intDecChars iv.adjust] := by
  simp [intervalToStringChars, joinSep, List.append_assoc]

theorem parseAllInt64_length : ∀ (ps : List (List Char)) (l : List Int),
    parseAllInt64 ps = some l → ps.length = l.length := by
  intro ps
  induction ps with
  | nil =>
    intro l h
    rw [parseAllInt64] at h
    cases h
    rfl
  | cons p ps' ih =>
    intro l h
    rw [parseAllInt64] at h
    cases hp : parseGoInt64 (String.mk p) with
    | none => rw [hp] at h; cases h
    | some v =>
      rw [hp] at h
      cases hr : parseAllInt64 ps' with
      | none => rw [hr] at h; cases h
      | some l' =>
        rw [hr] at h
        cases h
        simp [ih l' hr]

theorem exists_nine {α : Type} {l : List α} (hlen : l.length = 9) :
    ∃ a b c d e f g h i, l = [a, b, c, d, e, f, g, h, i] := by
  rcases l with _ | ⟨a, l⟩; · simp at hlen
  rcases l with _ | ⟨b, l⟩; · simp at hlen
  rcases l with _ | ⟨c, l⟩; · simp at hlen
  rcases l with _ | ⟨d, l⟩; · simp at hlen
  rcases l with _ | ⟨e, l⟩; · simp at hlen
  rcases l with _ | ⟨f, l⟩; · simp at hlen
  rcases l with _ | ⟨g, l⟩; · simp at hlen
  rcases l with _ | ⟨h, l⟩; · simp at hlen
  rcases l with _ | ⟨i, l⟩; · simp at hlen
  have h0 : l.length = 0 := by
    simp only [List.length_cons] at hlen
    omega
  rw [List.length_eq_zero] at h0
  subst h0
  exact ⟨a, b, c, d, e, f, g, h, i, rfl⟩

theorem parseAllInt64_print (y mo w d h mi se ns ad : Int) :
    parseAllInt64 [intDecChars y, intDecChars mo, intDecChars w, intDecChars d,
      intDecChars h, intDecChars mi, intDecChars se, intDecChars ns, intDecChars ad] =
    if inInt64 y ∧ inInt64 mo ∧ inInt64 w ∧ inInt64 d ∧ inInt64 h ∧ inInt64 mi ∧
        inInt64 se ∧ inInt64 ns ∧ inInt64 ad then
      some [y, mo, w, d, h, mi, se, ns, ad]
    else none := by
  by_cases h1 : inInt64 y
  case neg => simp [parseAllInt64, parseGoInt64_print, h1]
  by_cases h2 : inInt64 mo
  case neg => simp [parseAllInt64, parseGoInt64_print, h1, h2]
  by_cases h3 : inInt64 w
  case neg => simp [parseAllInt64, parseGoInt64_print, h1, h2, h3]
  by_cases h4 : inInt64 d
  case neg => simp [parseAllInt64, parseGoInt64_print, h1, h2, h3, h4]
  by_cases h5 : inInt64 h
  case neg => simp [parseAllInt64, parseGoInt64_print, h1, h2, h3, h4, h5]
  by_cases h6 : inInt64 mi
  case neg => simp [parseAllInt64, parseGoInt64_print, h1, h2, h3, h4, h5, h6]
  by_cases h7 : inInt64 se
  case neg => simp [parseAllInt64, parseGoInt64_print, h1, h2, h3, h4, h5, h6, h7]
  by_cases h8 : inInt64 ns
  case neg => simp [parseAllInt64, parseGoInt64_print, h1, h2, h3, h4, h5, h6, h7, h8]
  by_cases h9 : inInt64 ad
  case neg => simp [parseAllInt64, parseGoInt64_print, h1, h2, h3, h4, h5, h6, h7, h8, h9]
  simp [parseAllInt64, parseGoInt64_print, h1, h2, h3, h4, h5, h6, h7, h8, h9]

theorem stringToIntervalConvert_eq_of_fields (s : String) (a b c d e f g h i : Int)
    (hlen : (splitChar ',' s.data).length = 9)
    (hpa : parseAllInt64 (splitChar ',' s.data) = some [a, b, c, d, e, f, g, h, i]) :
    stringToIntervalConvert s =
      if i ≠ noneAdjust ∧ i ≠ excessAdjust ∧ i ≠ lastAdjust then none
      else some (.interval ⟨a, b, c, d, e, f, g, h, i⟩) := by
  simp only [stringToIntervalConvert, if_pos hlen, hpa]

theorem stringToIntervalConvert_eq_none_of_parse (s : String)
    (hpa : parseAllInt64 (splitChar ',' s.data) = none) :
    stringToIntervalConvert s = none := by
  simp only [stringToIntervalConvert, hpa]
  split <;> rfl

theorem stringToIntervalConvert_eq_none_of_len (s : String)
    (hlen : (splitChar ',' s.data).length ≠ 9) :
    stringToIntervalConvert s = none := by
  simp only [stringToIntervalConvert, if_neg hlen]

theorem splitChar_intervalToStringChars (iv : Interval) :
    splitChar ',' (intervalToStringChars iv) =
      [intDecChars iv.year, intDecChars iv.month, intDecChars iv.week, intDecChars iv.day,
        intDecChars iv.hour, intDecChars iv.min, intDecChars iv.sec, intDecChars iv.nsec,
        intDecChars iv.adjust] := by
  rw [intervalToStringChars_eq]
  refine splitChar_joinSep ',' _ (by simp) ?_
  intro f hf
  fin_cases hf <;> exact comma_not_mem_intDecChars _

theorem stringToIntervalConvert_print (iv : Interval) :
    stringToIntervalConvert (String.mk (intervalToStringChars iv)) =
      if inInt64 iv.year ∧ inInt64 iv.month ∧ inInt64 iv.week ∧ inInt64 iv.day ∧
          inInt64 iv.hour ∧ inInt64 iv.min ∧ inInt64 iv.sec ∧ inInt64 iv.nsec ∧
          inInt64 iv.adjust then
        (if iv.adjust ≠ noneAdjust ∧ iv.adjust ≠ excessAdjust ∧ iv.adjust ≠ lastAdjust
          then none else some (.interval iv))
      else none := by
  obtain ⟨y, mo, w, d, h, mi, se, ns, ad⟩ := iv
  have hparts := splitChar_intervalToStringChars ⟨y, mo, w, d, h, mi, se, ns, ad⟩
  simp only [stringToIntervalConvert, string_mk_data, hparts, List.length_cons,
    List.length_nil, parseAllInt64_print]
  norm_num
  by_cases hall : inInt64 y ∧ inInt64 mo ∧ inInt64 w ∧ inInt64 d ∧ inInt64 h ∧ inInt64 mi ∧
      inInt64 se ∧ inInt64 ns ∧ inInt64 ad
  · rw [if_pos hall, if_pos hall]
  · rw [if_neg hall, if_neg hall]

theorem seqConvert_isSome_of_mem {S T : Type} (cs : List (Conv S T)) (c : Conv S T)
    (src : S) (hmem : c ∈ cs) (hc : (c src).isSome) : (seqConvert cs src).isSome := by
  induction cs with
  | nil => cases hmem
  | cons c0 rest ih =>
    rw [seqConvert]
    cases h0 : c0 src with
    | some r => simp
    | none =>
      rcases List.mem_cons.mp hmem with rfl | hmem'
      · rw [h0] at hc
        cases hc
      · exact ih hmem'

theorem mapFields_ne_lengthMismatch {S T : Type} :
    ∀ (cs : List (Conv S T)) (dflt : Option (Conv S T)) (t : List S),
      mapFields cs dflt t ≠ Except.error MapError.lengthMismatch := by
  intro cs dflt t
  induction t generalizing cs dflt with
  | nil => cases cs <;> cases dflt <;> simp [mapFields]
  | cons x xs ih =>
    cases cs with
    | nil =>
      cases dflt with
      | none => simp [mapFields]
      | some d =>
        rw [mapFields]
        cases hd : d x with
        | none => simp
        | some y =>
          cases hm : mapFields ([] : List (Conv S T)) (some d) xs with
          | error e =>
            have h := ih [] (some d)
            rw [hm] at h
            simpa using h
          | ok ys => simp
    | cons c cs' =>
      rw [mapFields]
      cases hc : c x with
      | none => simp
      | some y =>
        cases hm : mapFields cs' dflt xs with
        | error e =>
          have h := ih cs' dflt
          rw [hm] at h
          simpa using h
        | ok ys => simp

theorem mapFields_take {S T : Type} :
    ∀ (cs : List (Conv S T)) (dflt : Option (Conv S T)) (t : List S),
      t.length ≤ cs.length →
      mapFields cs dflt t = mapFields (cs.take t.length) dflt t := by
  intro cs dflt t
  induction t generalizing cs with
  | nil => intro _; cases cs <;> cases dflt <;> simp [mapFields]
  | cons x xs ih =>
    intro hlen
    cases cs with
    | nil => simp at hlen
    | cons c cs' =>
      simp only [List.length_cons, List.take_succ_cons, mapFields]
      rw [ih cs' (by simpa using hlen)]

/-! ### The claims. -/

/-- Claim C1: for every base converter `C` and configured null sentinel, the
nullable-wrapped converter applied to the sentinel returns null with no
error, regardless of what `C` would do — the null-sentinel check always
comes before delegation to `C`. -/
theorem nullable_sentinel_yields_null (fac : StringToTTConvFactory) (conv : Conv String Val) :
    fac.makeNullableConverter conv fac.nullValue = some Val.null := by
  simp [StringToTTConvFactory.makeNullableConverter, seqConvert, stringToNullConvert]

/-- Claim C2: with `N` converters and no default converter, `Map` fails with
the length-mismatch error exactly when the tuple is longer than `N`; with a
default converter it never fails for that reason; a tuple no longer than `N`
is processed using only the corresponding prefix of the converter list. -/
theorem mapper_length_law {S T : Type} (convs : List (Conv S T)) (dflt : Option (Conv S T))
    (tuple : List S) :
    ((Mapper.map ⟨convs, none⟩ tuple = .error .lengthMismatch) ↔ convs.length < tuple.length)
    ∧ (∀ d : Conv S T, Mapper.map ⟨convs, some d⟩ tuple ≠ .error .lengthMismatch)
    ∧ (tuple.length ≤ convs.length →
        Mapper.map ⟨convs, dflt⟩ tuple = Mapper.map ⟨convs.take tuple.length, dflt⟩ tuple) := by
  refine ⟨?_, ?_, ?_⟩
  · rw [Mapper.map, Mapper.validateTuple]
    by_cases hlen : convs.length < tuple.length
    · have hc : tuple.length > convs.length ∧ (none : Option (Conv S T)).isNone = true :=
        ⟨hlen, rfl⟩
      rw [if_pos hc]
      simp [hlen]
    · have hc : ¬(tuple.length > convs.length ∧ (none : Option (Conv S T)).isNone = true) := by
        simp [hlen]
      rw [if_neg hc]
      exact iff_of_false (mapFields_ne_lengthMismatch _ _ _) hlen
  · intro d
    rw [Mapper.map, Mapper.validateTuple]
    have hc : ¬(tuple.length > convs.length ∧ (some d).isNone = true) := by simp
    rw [if_neg hc]
    exact mapFields_ne_lengthMismatch _ _ _
  · intro hlen
    rw [Mapper.map, Mapper.map, Mapper.validateTuple, Mapper.validateTuple]
    have h1 : ¬(tuple.length > convs.length ∧ (dflt).isNone = true) := by
      intro hcon
      omega
    have h2 : ¬(tuple.length > (convs.take tuple.length).length ∧ (dflt).isNone = true) := by
      intro hcon
      rw [List.length_take] at hcon
      omega
    rw [if_neg h1, if_neg h2]
    exact mapFields_take convs dflt tuple hlen

/-- Witness for C2: an empty converter list with no default rejects a
one-element tuple with the length-mismatch error. -/
theorem mapper_length_law_witness :
    Mapper.map (⟨[], none⟩ : Mapper String Val) ["a"] = .error .lengthMismatch :=
  (mapper_length_law [] none ["a"]).1.mpr (by decide)

/-- Claim C6: the converters built for the `any` and `scalar` type names
never return an error on any input string: the identity string converter is
the last alternative of their sequence, so the error branch of the sequence
combinator is unreachable. -/
theorem any_scalar_never_fail (db : TzDb) (fac : StringToTTConvFactory) (s : String) :
    (fac.getAnyConverter db s).isSome ∧ (fac.getScalarConverter db s).isSome := by
  constructor
  · exact seqConvert_isSome_of_mem _ fac.getStringConverter s (by simp) rfl
  · exact seqConvert_isSome_of_mem _ fac.getStringConverter s (by simp) rfl

/-- Counterexample to claim C7 as stated: the map converter does not fail on
well-formed JSON whose top-level value is a sequence, and the array converter
does not fail on a top-level object — neither validates the decoded
top-level shape. -/
theorem json_wrong_shape_accepted_cex :
    stringToMapConvert "[1]" = some (.json (.arr [.num "1"]))
    ∧ stringToSliceConvert "\x7b\x7d" = some (.json (.obj [])) := by
  exact ⟨rfl, rfl⟩

/-- Claim C7 (amended): for every input string that is valid JSON, both the
map converter and the array converter succeed with the decoded generic value,
whatever its top-level shape — neither rejects a wrong-shaped value. -/
theorem json_converters_accept_any_json (s : String) (v : Jsonish)
    (h : jsonUnmarshal s = some v) :
    stringToMapConvert s = some (.json v) ∧ stringToSliceConvert s = some (.json v) := by
  rw [stringToMapConvert, stringToSliceConvert]
  simp [h]

/-- Witness for the amended C7: the number `12` decodes and both converters
return it. -/
theorem json_converters_accept_any_json_witness :
    stringToMapConvert "12" = some (.json (.num "12"))
    ∧ stringToSliceConvert "12" = some (.json (.num "12")) :=
  json_converters_accept_any_json "12" (.num "12") rfl

/-- Claim C9: parsing with the unsigned converter is insensitive to inserted
thousand-separator characters (two inputs that agree after stripping the
separator set convert identically), and concretely the separator `'` maps
`111'111'111'111` to `111111111111`. -/
theorem unsigned_separator_insensitive (seps s n : String)
    (h : replaceCharacters s seps "" = replaceCharacters n seps "") :
    stringToUIntConvert seps s = stringToUIntConvert seps n
    ∧ stringToUIntConvert (String.mk [Char.ofNat 39])
        (String.mk ['1', '1', '1', Char.ofNat 39, '1', '1', '1', Char.ofNat 39,
          '1', '1', '1', Char.ofNat 39, '1', '1', '1'])
      = some (.uint 111111111111) := by
  constructor
  · simp only [stringToUIntConvert]
    rw [h]
  · rfl

/-- Witness for C9: inserting `_` into `12` does not change the parse. -/
theorem unsigned_separator_insensitive_witness :
    stringToUIntConvert "_" "1_2" = stringToUIntConvert "_" "12" :=
  (unsigned_separator_insensitive "_" "1_2" "12" (by decide)).1

/-- Claim C4: the interval converter succeeds exactly when the input splits
on commas into exactly nine fields, each a valid base-10 signed 64-bit
integer, with the ninth being one of the three adjust codes; on success the
fields populate year, month, week, day, hour, min, sec, nsec, adjust in that
order; concretely `1,2,3,4,5,6,7,8,1` parses to exactly that interval and
`1,2,3,4,5,6,7,8,3` fails. -/
theorem interval_parse_spec (s : String) :
    ((stringToIntervalConvert s).isSome ↔
      ∃ fields : List Int, parseAllInt64 (splitChar ',' s.data) = some fields ∧
        fields.length = 9 ∧
        (fields.getD 8 0 = noneAdjust ∨ fields.getD 8 0 = excessAdjust ∨
          fields.getD 8 0 = lastAdjust))
    ∧ (∀ iv : Interval, stringToIntervalConvert s = some (.interval iv) →
        parseAllInt64 (splitChar ',' s.data) =
          some [iv.year, iv.month, iv.week, iv.day, iv.hour, iv.min, iv.sec, iv.nsec,
            iv.adjust])
    ∧ stringToIntervalConvert "1,2,3,4,5,6,7,8,1" = some (.interval ⟨1, 2, 3, 4, 5, 6, 7, 8, 1⟩)
    ∧ stringToIntervalConvert "1,2,3,4,5,6,7,8,3" = none := by
  refine ⟨?_, ?_, rfl, rfl⟩
  · by_cases hlen : (splitChar ',' s.data).length = 9
    · cases hpa : parseAllInt64 (splitChar ',' s.data) with
      | none =>
        rw [stringToIntervalConvert_eq_none_of_parse s hpa]
        simp [hpa]
      | some fields =>
        have h9 : fields.length = 9 := by
          rw [← parseAllInt64_length _ _ hpa]
          exact hlen
        obtain ⟨a, b, c, d, e, f, g, h, i, rfl⟩ := exists_nine h9
        rw [stringToIntervalConvert_eq_of_fields s a b c d e f g h i hlen hpa]
        by_cases hadj : i ≠ noneAdjust ∧ i ≠ excessAdjust ∧ i ≠ lastAdjust
        · rw [if_pos hadj]
          refine iff_of_false (by simp) ?_
          rintro ⟨fields', hf, -, hdisj⟩
          injection hf with hf
          subst hf
          simp only [List.getD_cons_succ, List.getD_cons_zero] at hdisj
          tauto
        · rw [if_neg hadj]
          refine iff_of_true rfl ?_
          have hval : i = noneAdjust ∨ i = excessAdjust ∨ i = lastAdjust := by tauto
          exact ⟨[a, b, c, d, e, f, g, h, i], rfl, rfl,
            by simpa [List.getD_cons_succ, List.getD_cons_zero] using hval⟩
    · rw [stringToIntervalConvert_eq_none_of_len s hlen]
      refine iff_of_false (by simp) ?_
      rintro ⟨fields, hf, h9, -⟩
      exact hlen ((parseAllInt64_length _ _ hf).trans h9)
  · intro iv hiv
    by_cases hlen : (splitChar ',' s.data).length = 9
    · cases hpa : parseAllInt64 (splitChar ',' s.data) with
      | none => rw [stringToIntervalConvert_eq_none_of_parse s hpa] at hiv; cases hiv
      | some fields =>
        have h9 : fields.length = 9 := by
          rw [← parseAllInt64_length _ _ hpa]
          exact hlen
        obtain ⟨a, b, c, d, e, f, g, h, i, rfl⟩ := exists_nine h9
        rw [stringToIntervalConvert_eq_of_fields s a b c d e f g h i hlen hpa] at hiv
        by_cases hadj : i ≠ noneAdjust ∧ i ≠ excessAdjust ∧ i ≠ lastAdjust
        · rw [if_pos hadj] at hiv
          cases hiv
        · rw [if_neg hadj] at hiv
          injection hiv with hiv
          cases hiv
          rfl
    · rw [stringToIntervalConvert_eq_none_of_len s hlen] at hiv
      cases hiv

/-- Witness for C4: the fields of `1,2,3,4,5,6,7,8,1` all parse, in order. -/
theorem interval_parse_spec_witness :
    parseAllInt64 (splitChar ',' ("1,2,3,4,5,6,7,8,1" : String).data) =
      some [1, 2, 3, 4, 5, 6, 7, 8, 1] :=
  (interval_parse_spec "1,2,3,4,5,6,7,8,1").2.1 ⟨1, 2, 3, 4, 5, 6, 7, 8, 1⟩ rfl

/-- Claim C5: a well-formed interval (64-bit fields, valid adjust code)
converted to its comma-joined string form and parsed back yields the same
interval, with no error at either step. -/
theorem interval_roundtrip (iv : Interval)
    (hy : inInt64 iv.year) (hmo : inInt64 iv.month) (hw : inInt64 iv.week)
    (hd : inInt64 iv.day) (hh : inInt64 iv.hour) (hmi : inInt64 iv.min)
    (hse : inInt64 iv.sec) (hns : inInt64 iv.nsec)
    (had : iv.adjust = noneAdjust ∨ iv.adjust = excessAdjust ∨ iv.adjust = lastAdjust) :
    ∃ s : String, intervalToStringConvert iv = some s
      ∧ stringToIntervalConvert s = some (.interval iv) := by
  refine ⟨String.mk (intervalToStringChars iv), rfl, ?_⟩
  have hadr : inInt64 iv.adjust := by
    rcases had with h | h | h <;> rw [h] <;> decide
  rw [stringToIntervalConvert_print,
    if_pos ⟨hy, hmo, hw, hd, hh, hmi, hse, hns, hadr⟩, if_neg]
  tauto

/-- Witness for C5: the round trip on the interval `1,2,3,4,5,6,7,8,1`. -/
theorem interval_roundtrip_witness :
    ∃ s : String, intervalToStringConvert ⟨1, 2, 3, 4, 5, 6, 7, 8, 1⟩ = some s
      ∧ stringToIntervalConvert s = some (.interval ⟨1, 2, 3, 4, 5, 6, 7, 8, 1⟩) :=
  interval_roundtrip ⟨1, 2, 3, 4, 5, 6, 7, 8, 1⟩ (by decide) (by decide) (by decide)
    (by decide) (by decide) (by decide) (by decide) (by decide) (Or.inr (Or.inl rfl))

/-- Claim C10: the interval-to-string converter returns a nil error for every
interval value, always emitting a nine-field comma-joined string; when the
adjust field is outside the three valid codes, the interval parser rejects
that string. -/
theorem interval_print_total_and_rejected (iv : Interval) :
    (intervalToStringConvert iv).isSome
    ∧ ∀ s : String, intervalToStringConvert iv = some s →
        (splitChar ',' s.data).length = 9
        ∧ ((iv.adjust ≠ noneAdjust ∧ iv.adjust ≠ excessAdjust ∧ iv.adjust ≠ lastAdjust) →
            stringToIntervalConvert s = none) := by
  refine ⟨rfl, ?_⟩
  intro s hs
  rw [intervalToStringConvert] at hs
  injection hs with hs
  subst hs
  constructor
  · rw [string_mk_data, splitChar_intervalToStringChars]
    rfl
  · intro hbad
    rw [stringToIntervalConvert_print]
    by_cases hall : inInt64 iv.year ∧ inInt64 iv.month ∧ inInt64 iv.week ∧ inInt64 iv.day ∧
        inInt64 iv.hour ∧ inInt64 iv.min ∧ inInt64 iv.sec ∧ inInt64 iv.nsec ∧ inInt64 iv.adjust
    · rw [if_pos hall, if_pos hbad]
    · rw [if_neg hall]

/-- Witness for C10: printing the interval with adjust code 7 gives
`1,2,3,4,5,6,7,8,7`, which the parser rejects. -/
theorem interval_print_total_and_rejected_witness :
    stringToIntervalConvert "1,2,3,4,5,6,7,8,7" = none :=
  (((interval_print_total_and_rejected ⟨1, 2, 3, 4, 5, 6, 7, 8, 7⟩).2
    "1,2,3,4,5,6,7,8,7" rfl).2) (by decide)

theorem getConverterByType_of_not_mem {S : Type} (fac : TTConvFactoryI S) (t : String)
    (h : t ∉ validTypeNames) : getConverterByType fac t = .error t := by
  simp only [validTypeNames, List.mem_cons, List.not_mem_nil, or_false, not_or] at h
  unfold getConverterByType
  split <;> simp_all

theorem getConverterByType_of_mem {S : Type} (fac : TTConvFactoryI S) (t : String)
    (h : t ∈ validTypeNames) : ∃ c, getConverterByType fac t = .ok c := by
  fin_cases h <;> exact ⟨_, rfl⟩

theorem getConverterByType_error_elim {S : Type} (fac : TTConvFactoryI S) (t e : String)
    (h : getConverterByType fac t = .error e) : e = t ∧ t ∉ validTypeNames := by
  by_cases hm : t ∈ validTypeNames
  · obtain ⟨c, hc⟩ := getConverterByType_of_mem fac t hm
    rw [hc] at h
    cases h
  · have he := getConverterByType_of_not_mem fac t hm
    rw [he] at h
    injection h with h
    exact ⟨h.symm, hm⟩

/-- Claim C8: for every factory and schema, the assembler returns either a
converter list exactly as long as the schema, or — when some descriptor's
type name is outside the enumerated set — the dispatch error of the first
such descriptor, with every earlier descriptor valid (it fails fast). -/
theorem assembler_length_or_first_error {S : Type} (fac : TTConvFactoryI S)
    (fmt : List SpaceField) :
    (∀ l, makeTypeToTTConverters fac fmt = .ok l → l.length = fmt.length)
    ∧ (∀ e, makeTypeToTTConverters fac fmt = .error e →
        ∃ pre f post, fmt = pre ++ f :: post
          ∧ (∀ g ∈ pre, g.type ∈ validTypeNames)
          ∧ f.type ∉ validTypeNames ∧ e = f.type) := by
  induction fmt with
  | nil =>
    constructor
    · intro l h
      rw [makeTypeToTTConverters] at h
      injection h with h
      rw [← h]
      rfl
    · intro e h
      rw [makeTypeToTTConverters] at h
      cases h
  | cons f rest ih =>
    constructor
    · intro l h
      rw [makeTypeToTTConverters] at h
      cases hd : getConverterByType fac f.type with
      | error e0 =>
        rw [hd] at h
        cases h
      | ok conv =>
        rw [hd] at h
        cases hr : makeTypeToTTConverters fac rest with
        | error e1 =>
          rw [hr] at h
          cases h
        | ok l' =>
          rw [hr] at h
          injection h with h
          rw [← h]
          simp [ih.1 l' hr]
    · intro e h
      rw [makeTypeToTTConverters] at h
      cases hd : getConverterByType fac f.type with
      | error e0 =>
        rw [hd] at h
        injection h with he
        obtain ⟨he0, hnm⟩ := getConverterByType_error_elim fac f.type e0 hd
        exact ⟨[], f, rest, rfl, by simp, hnm, by rw [← he, he0]⟩
      | ok conv =>
        rw [hd] at h
        cases hr : makeTypeToTTConverters fac rest with
        | ok l' =>
          rw [hr] at h
          cases h
        | error e1 =>
          rw [hr] at h
          injection h with he
          obtain ⟨pre, f', post, hfmt, hpre, hf', he'⟩ := ih.2 e1 hr
          refine ⟨f :: pre, f', post, by rw [hfmt]; rfl, ?_, hf', by rw [← he]; exact he'⟩
          intro g hg
          rcases List.mem_cons.mp hg with rfl | hg'
          · by_contra hnm
            have hbad := getConverterByType_of_not_mem fac g.type hnm
            rw [hbad] at hd
            cases hd
          · exact hpre g hg'

/-- Witness for C8: assembling `[unsigned, bogus, alsobad]` with the string
factory fails fast with the dispatch error of the first invalid name. -/
theorem assembler_length_or_first_error_witness :
    ∃ pre f post,
      ([⟨0, "a", "unsigned", false⟩, ⟨0, "b", "bogus", false⟩,
        ⟨0, "c", "alsobad", true⟩] : List SpaceField) = pre ++ f :: post
      ∧ (∀ g ∈ pre, g.type ∈ validTypeNames)
      ∧ f.type ∉ validTypeNames ∧ "bogus" = f.type :=
  (assembler_length_or_first_error
    (stringFactoryI (fun _ => none) makeStringToTTConvFactory)
    [⟨0, "a", "unsigned", false⟩, ⟨0, "b", "bogus", false⟩,
      ⟨0, "c", "alsobad", true⟩]).2 "bogus" rfl

/-- Claim C3: the datetime converter splits on the first space.  With no
space it parses `YYYY-MM-DDThh:mm:ss[.fraction]±hhmm` and places the parsed
instant in a fixed-offset zone equal to the parsed offset (failing exactly
when that layout does not match).  With a space it resolves the suffix as a
named zone — failing on an unknown name — and parses the prefix with
wall-clock semantics in that zone, failing when that layout does not
match. -/
theorem datetime_convert_branches (db : TzDb) (src : String) :
    (' ' ∉ src.data →
      ((stringToDatetimeConvert db src).isSome ↔ (parseCivilOffset src.data).isSome)
      ∧ ∀ c off, parseCivilOffset src.data = some (c, off) →
          stringToDatetimeConvert db src =
            some (.datetime ⟨civilToSec c - off, c.nsec, goFixedZone noTimezone off⟩))
    ∧ (∀ pre suf, src.data = pre ++ ' ' :: suf → ' ' ∉ pre →
        (db (String.mk suf) = none → stringToDatetimeConvert db src = none)
        ∧ ∀ loc, db (String.mk suf) = some loc →
            stringToDatetimeConvert db src =
              (parseCivilWall pre).map (fun c =>
                .datetime ⟨civilToSec c - loc.wallOffset c, c.nsec, loc⟩)) := by
  constructor
  · intro hns
    have hcut : cutChar ' ' src.data = (src.data, [], false) := cutChar_not_mem hns
    constructor
    · simp only [stringToDatetimeConvert, hcut]
      cases hp : parseCivilOffset src.data with
      | none => simp [timeParseOffsetForm, hp]
      | some p => simp [timeParseOffsetForm, hp, goNewDatetime]
    · intro c off hp
      simp only [stringToDatetimeConvert, hcut]
      simp [timeParseOffsetForm, hp, goNewDatetime, goZone, goIn, goFixedZone, noTimezone]
  · intro pre suf hdecomp hpre
    have hcut : cutChar ' ' src.data = (pre, suf, true) := by
      rw [hdecomp]
      exact cutChar_append suf hpre
    constructor
    · intro hdb
      simp only [stringToDatetimeConvert, hcut]
      simp [hdb]
    · intro loc hdb
      simp only [stringToDatetimeConvert, hcut]
      cases hw : parseCivilWall pre with
      | none => simp [hdb, goParseInLocation, hw]
      | some c => simp [hdb, goParseInLocation, hw, goNewDatetime]

/-- Witness for C3: with an empty zone database, a numeric-offset timestamp
with no space converts successfully. -/
theorem datetime_convert_branches_witness :
    (stringToDatetimeConvert (fun _ => none) "2020-08-22T11:27:43.123456789-0200").isSome :=
  (((datetime_convert_branches (fun _ => none)
    "2020-08-22T11:27:43.123456789-0200").1 (by decide)).1).mpr rfl

end Tupleconv
